import Mathlib

/-!
Shallow embedding of the `sqler` document micro-ORM core: JSON payloads,
the field/expression algebra, the query compiler, document CRUD, the
reference encoding, batched hydration, optimistic-versioned safe models
and the `set_null` delete policy.  The `sqler` package itself ships only
tests and examples in this tree, so the core operations are modelled from
the specification, pinned to the concrete SQL strings and behaviours that
the repository's test suite asserts.
-/

namespace Sqler

/-- JSON values as stored in a document's `data` column. -/
inductive JVal where
  | null : JVal
  | bool (b : Bool) : JVal
  | int (n : Int) : JVal
  | str (s : String) : JVal
  | arr (xs : List JVal) : JVal
  | obj (fields : List (String × JVal)) : JVal

/-- Look a key up in a JSON object (first occurrence); non-objects have no keys. -/
def lookupKey : JVal → String → Option JVal
  | .obj fs, k => fs.lookup k
  | _, _ => none

/-- Modelled from the spec: `json_extract(base, '$.k1.k2…')` — walk a key path
into a payload, `none` when any step is missing. -/
def extractPath : JVal → List String → Option JVal
  | d, [] => some d
  | d, k :: ks =>
    match lookupKey d k with
    | some v => extractPath v ks
    | none => none

/-- Comparison operators of the field algebra. -/
inductive Cmp where
  | eq | ne | lt | le | gt | ge
deriving DecidableEq

/-- Modelled from the spec: SQL comparison semantics on extracted JSON scalars.
Comparing `NULL` or values of unlike types never holds. -/
def cmpEval : Cmp → JVal → JVal → Bool
  | op, .int a, .int b =>
    match op with
    | .eq => a == b
    | .ne => a != b
    | .lt => a < b
    | .le => a ≤ b
    | .gt => a > b
    | .ge => a ≥ b
  | op, .str a, .str b =>
    match op with
    | .eq => a == b
    | .ne => a != b
    | .lt => a < b
    | .le => a ≤ b || a == b
    | .gt => b < a
    | .ge => b < a || a == b
  | .eq, .bool a, .bool b => a == b
  | .ne, .bool a, .bool b => a != b
  | _, _, _ => false

/-- Scalar equality used by `json_each.value IN (…)` membership tests. -/
def scalarEq (a b : JVal) : Bool := cmpEval .eq a b

/-- Modelled from the spec: compiled predicates of the expression algebra.
`anyW path filt inner` is the correlated `EXISTS … json_each` scope produced
by `field.any().where(filt)…`: both `filt` and `inner` are evaluated against
the array element, not the outer document. -/
inductive Pred where
  | trueP : Pred
  | falseP : Pred
  | cmp (path : List String) (op : Cmp) (v : JVal) : Pred
  | isinNE (path : List String) (vs : List JVal) : Pred
  | anyW (path : List String) (filt : Pred) (inner : Pred) : Pred
  | and (p q : Pred) : Pred
  | or (p q : Pred) : Pred
  | not (p : Pred) : Pred

/-- Modelled from the spec: the engine's semantics of a compiled predicate,
evaluated against one document's payload (`base` = the `data` column for the
outer scope, the `json_each` element value inside an `any()` scope). -/
def evalPred : Pred → JVal → Bool
  | .trueP, _ => true
  | .falseP, _ => false
  | .cmp path op v, base =>
    match extractPath base path with
    | some x => cmpEval op x v
    | none => false
  | .isinNE path vs, base =>
    match extractPath base path with
    | some (.arr xs) => xs.any fun e => vs.any fun v => scalarEq e v
    | _ => false
  | .anyW path filt inner, base =>
    match extractPath base path with
    | some (.arr xs) => xs.any fun e => evalPred filt e && evalPred inner e
    | _ => false
  | .and p q, base => evalPred p base && evalPred q base
  | .or p q, base => evalPred p base || evalPred q base
  | .not p, base => !evalPred p base

/-- JSON path literal `$.a.b` for a key path. -/
def renderPath (path : List String) : String :=
  "$" ++ String.join (path.map fun k => "." ++ k)

/-- `?, ?, …, ?` with `n` placeholders. -/
def placeholders : Nat → String
  | 0 => ""
  | 1 => "?"
  | n + 1 => "?, " ++ placeholders n

/-- SQL spelling of a comparison operator. -/
def cmpSql : Cmp → String
  | .eq => "="
  | .ne => "!="
  | .lt => "<"
  | .le => "<="
  | .gt => ">"
  | .ge => ">="

/-- Modelled from the spec: render a predicate to `(sqlFragment, parameters)`.
`base` is the JSON base expression of the current scope (`data` at the top,
`eN.value` inside the `N`-th nested `any()` scope); aliases are unique per
scope. -/
def renderPred : Pred → String → Nat → String × List JVal
  | .trueP, _, _ => ("1", [])
  | .falseP, _, _ => ("0", [])
  | .cmp path op v, base, _ =>
    ("JSON_EXTRACT(" ++ base ++ ", '" ++ renderPath path ++ "') " ++ cmpSql op ++ " ?", [v])
  | .isinNE path vs, base, _ =>
    ("EXISTS (SELECT 1 FROM json_each(" ++ base ++ ", '" ++ renderPath path
      ++ "') WHERE json_each.value IN (" ++ placeholders vs.length ++ "))", vs)
  | .anyW path filt inner, base, depth =>
    let al := "e" ++ toString depth
    let f := renderPred filt (al ++ ".value") (depth + 1)
    let i := renderPred inner (al ++ ".value") (depth + 1)
    ("EXISTS (SELECT 1 FROM json_each(" ++ base ++ ", '" ++ renderPath path
      ++ "') AS " ++ al ++ " WHERE (" ++ f.1 ++ ") AND (" ++ i.1 ++ "))",
      f.2 ++ i.2)
  | .and p q, base, depth =>
    let a := renderPred p base depth
    let b := renderPred q base depth
    ("(" ++ a.1 ++ ") AND (" ++ b.1 ++ ")", a.2 ++ b.2)
  | .or p q, base, depth =>
    let a := renderPred p base depth
    let b := renderPred q base depth
    ("(" ++ a.1 ++ ") OR (" ++ b.1 ++ ")", a.2 ++ b.2)
  | .not p, base, depth =>
    let a := renderPred p base depth
    ("NOT (" ++ a.1 ++ ")", a.2)

/-- Top-level rendering of an expression against the `data` column. -/
def renderExpr (p : Pred) : String × List JVal := renderPred p "data" 0

/-- Modelled from the spec: `field.isin(vals)`; the empty list deliberately
compiles to the tautologically false `0` predicate with no parameters. -/
def isin (path : List String) (vs : List JVal) : Pred :=
  if vs.isEmpty then .falseP else .isinNE path vs

/-- Modelled from the spec: `field.any().where(filt)[k…] op v` — a quantified
predicate whose filter and trailing comparison are scoped to the array
element. -/
def anyWhereCmp (arrPath : List String) (filt : Pred) (k : List String)
    (op : Cmp) (v : JVal) : Pred :=
  .anyW arrPath filt (.cmp k op v)

/-! ### Rows and filtering -/

/-- One stored document: surrogate identifier plus JSON payload. -/
structure DocRow where
  id : Nat
  data : JVal

/-- Modelled from the spec: the rows a `filter(p)` query returns — exactly the
table rows whose payload satisfies the compiled predicate, in table order. -/
def filterRows (tbl : List DocRow) (p : Pred) : List DocRow :=
  tbl.filter fun r => evalPred p r.data

/-! ### Query builder -/

/-- Projection mode of a compiled query. -/
inductive Projection where
  | dataOnly | idData | countStar
deriving DecidableEq

/-- Modelled from the spec: the immutable query value — table, predicate
list, order clauses, limit and projection mode. -/
structure SQLerQuery where
  table : String
  wheres : List Pred
  order : List (String × Bool)
  limitN : Option Nat
  proj : Projection

/-- A fresh value-level query; the repository's tests pin its base SQL to
`SELECT data FROM <table>`. -/
def mkQuery (t : String) : SQLerQuery := ⟨t, [], [], none, .dataOnly⟩

/-- A fresh model-bound query: materializing instances needs the identifier,
so the base projection is `SELECT _id, data FROM <table>`. -/
def mkModelQuery (t : String) : SQLerQuery := ⟨t, [], [], none, .idData⟩

/-- `filter` returns a new query with one more predicate. -/
def SQLerQuery.filterQ (q : SQLerQuery) (p : Pred) : SQLerQuery :=
  { q with wheres := q.wheres ++ [p] }

/-- SQL text of a projection mode. -/
def projectionSql : Projection → String
  | .dataOnly => "SELECT data"
  | .idData => "SELECT _id, data"
  | .countStar => "SELECT count(*)"

/-- WHERE clause: a single predicate is rendered bare, a conjunction is
parenthesized, matching the tests. -/
def whereSql (ps : List Pred) : String :=
  match ps with
  | [] => ""
  | [p] => " WHERE " ++ (renderExpr p).1
  | ps => " WHERE " ++ String.intercalate " AND "
      (ps.map fun p => "(" ++ (renderExpr p).1 ++ ")")

/-- ORDER BY clause over JSON-extracted paths. -/
def orderSql (os : List (String × Bool)) : String :=
  match os with
  | [] => ""
  | os => " ORDER BY " ++ String.intercalate ", "
      (os.map fun ob =>
        "json_extract(data, '$." ++ ob.1 ++ "')" ++ if ob.2 then " DESC" else "")

/-- LIMIT clause. -/
def limitSql : Option Nat → String
  | none => ""
  | some n => " LIMIT " ++ toString n

/-- Modelled from the spec: compile a query to its final SQL string. -/
def SQLerQuery.sqlText (q : SQLerQuery) : String :=
  projectionSql q.proj ++ " FROM " ++ q.table
    ++ whereSql q.wheres ++ orderSql q.order ++ limitSql q.limitN

/-! ### Reference encoding -/

/-- A lookup edge to another document. -/
structure Ref where
  table : String
  id : Nat
deriving DecidableEq

/-- Modelled from the spec: a nested, already-saved model value is serialized
as the two-key mapping `{"_table": t, "_id": i}`. -/
def encodeRef (r : Ref) : JVal :=
  .obj [("_table", .str r.table), ("_id", .int r.id)]

/-- Modelled from the spec: the consumers' reference recognizer — a mapping
with exactly the keys `_table` (a string) and `_id` (a non-negative integer)
and no other keys. -/
def refOf : JVal → Option Ref
  | .obj fs =>
    if fs.length = 2 then
      match fs.lookup "_table", fs.lookup "_id" with
      | some (.str t), some (.int n) =>
        if 0 ≤ n then some ⟨t, n.toNat⟩ else none
      | _, _ => none
    else none
  | _ => none

/-! ### Document CRUD -/

/-- Largest identifier present in a table (0 when empty). -/
def maxId (tbl : List DocRow) : Nat :=
  tbl.foldr (fun r m => max r.id m) 0

/-- Modelled from the spec: insert a payload, auto-assigning a fresh
identifier; returns the new table and the assigned identifier. -/
def insertDocument (tbl : List DocRow) (d : JVal) : List DocRow × Nat :=
  (tbl ++ [⟨maxId tbl + 1, d⟩], maxId tbl + 1)

/-- Modelled from the spec: fetch a stored payload by identifier. -/
def findDocument (tbl : List DocRow) (i : Nat) : Option JVal :=
  (tbl.find? fun r => r.id == i).map DocRow.data

/-- Modelled from the spec: insert-or-replace by identifier. -/
def upsertDocument (tbl : List DocRow) (i : Nat) (d : JVal) : List DocRow :=
  (tbl.filter fun r => r.id != i) ++ [⟨i, d⟩]

/-- Modelled from the spec: delete by identifier; no-op when absent. -/
def deleteDocument (tbl : List DocRow) (i : Nat) : List DocRow :=
  tbl.filter fun r => r.id != i

/-- Materialize a row into an instance: inject `_id` into the payload. -/
def materialize (i : Nat) : JVal → JVal
  | .obj fs => .obj (("_id", .int i) :: fs)
  | d => d

/-- `model_dump`: the declared fields only — private metadata (`_id`) is
stripped. -/
def modelDump : JVal → JVal
  | .obj fs => .obj (fs.filter fun kv => kv.1 != "_id")
  | d => d

/-- An in-memory model instance: optional identifier plus current payload. -/
structure Instance where
  id : Option Nat
  data : JVal

/-- Modelled from the spec: `save()` — insert when the instance has no
identifier, replace the row otherwise; returns the new table and the
instance's identifier. -/
def saveInstance (tbl : List DocRow) (inst : Instance) : List DocRow × Nat :=
  match inst.id with
  | none => insertDocument tbl inst.data
  | some i => (upsertDocument tbl i inst.data, i)

/-- Modelled from the spec: `delete()` — remove the stored row and clear the
in-memory identifier, returning the instance to the unsaved state. -/
def deleteInstance (tbl : List DocRow) (inst : Instance) : List DocRow × Instance :=
  match inst.id with
  | none => (tbl, inst)
  | some i => (deleteDocument tbl i, ⟨none, inst.data⟩)

/-! ### Batched hydration -/

/-- The whole store: tables keyed by name. -/
def DBase : Type := String → List DocRow

/-- Fetch one document from the store. -/
def findInDb (db : DBase) (t : String) (i : Nat) : Option JVal :=
  findDocument (db t) i

/-- References held by one owner payload in its declared model-valued
fields. -/
def docRefs (flds : List String) (d : JVal) : List Ref :=
  flds.filterMap fun f => (extractPath d [f]).bind refOf

/-- All references held by a batch of owners, in order. -/
def allRefs (flds : List String) (owners : List JVal) : List Ref :=
  (owners.map (docRefs flds)).flatten

/-- The distinct referenced tables of a batch. -/
def refTables (flds : List String) (owners : List JVal) : List String :=
  ((allRefs flds owners).map Ref.table).dedup

/-- The distinct identifiers a batch references inside one table. -/
def idsForTable (flds : List String) (owners : List JVal) (t : String) : List Nat :=
  (((allRefs flds owners).filter fun r => r.table == t).map Ref.id).dedup

/-- One batched `SELECT _id, data FROM <table> WHERE _id IN (…)` lookup. -/
structure BatchQuery where
  table : String
  ids : List Nat

/-- Modelled from the spec: the hydrator collects, for each referenced table,
the set of distinct referenced identifiers, and issues one batched lookup per
referenced table. -/
def hydrationQueries (flds : List String) (owners : List JVal) : List BatchQuery :=
  (refTables flds owners).map fun t => ⟨t, idsForTable flds owners t⟩

/-- Hydrate one declared field value: a recognized reference whose target
exists is replaced by the target's stored payload; anything else is kept. -/
def hydrateField (db : DBase) (flds : List String) (f : String) (v : JVal) : JVal :=
  if flds.contains f then
    match refOf v with
    | some r =>
      match findInDb db r.table r.id with
      | some child => child
      | none => v
    | none => v
  else v

/-- Modelled from the spec: one-hop hydration of a single owner — each
declared reference field whose value is a reference mapping and whose target
exists is replaced by the target's stored payload; the hydrated child's own
reference fields are left as raw reference mappings (no recursion). -/
def hydrateDoc (db : DBase) (flds : List String) : JVal → JVal
  | .obj fs => .obj (fs.map fun kv => (kv.1, hydrateField db flds kv.1 kv.2))
  | d => d

/-! ### Safe models (optimistic concurrency) -/

/-- One row of a safe-model table: identifier, payload and version column. -/
structure SafeRow where
  id : Nat
  data : JVal
  version : Nat

/-- Errors the model runtime layers on top of the adapter. -/
inductive ModelError where
  | staleVersion
  | notFound
deriving DecidableEq

/-- SQL statements the safe-model save path hands to the adapter. -/
inductive Stmt where
  | updateCond (table : String) (i ver : Nat) (d : JVal)

/-- Rows matching the optimistic key `(_id, _version)`. -/
def matchCount (tbl : List SafeRow) (i ver : Nat) : Nat :=
  tbl.countP fun r => r.id == i && r.version == ver

/-- Modelled from the spec:
`UPDATE <t> SET data=?, _version=_version+1 WHERE _id=? AND _version=?` —
returns the updated table and the number of affected rows. -/
def condUpdate (tbl : List SafeRow) (i ver : Nat) (d : JVal) :
    List SafeRow × Nat :=
  (tbl.map fun r =>
    if r.id == i && r.version == ver then ⟨r.id, d, r.version + 1⟩ else r,
   matchCount tbl i ver)

/-- Modelled from the spec: `save()` on a safe model that already has an
identifier — issue the single conditional UPDATE; zero affected rows raises
`StaleVersion`, otherwise the in-memory `_version` advances by exactly 1.
Returns the outcome (new table and new in-memory version) and the statements
issued to the adapter. -/
def saveSafeExisting (table : String) (tbl : List SafeRow) (i ver : Nat)
    (d : JVal) : Except ModelError (List SafeRow × Nat) × List Stmt :=
  let u := condUpdate tbl i ver d
  (if u.2 = 0 then .error .staleVersion else .ok (u.1, ver + 1),
   [.updateCond table i ver d])

/-- An external writer bumping `_version` behind the model's back. -/
def bumpVersion (tbl : List SafeRow) (i : Nat) : List SafeRow :=
  tbl.map fun r => if r.id == i then ⟨r.id, r.data, r.version + 1⟩ else r

/-- Modelled from the spec: `refresh()` — re-read the stored row, returning
its payload and version; `none` models `NotFound`. -/
def refreshRow (tbl : List SafeRow) (i : Nat) : Option (JVal × Nat) :=
  (tbl.find? fun r => r.id == i).map fun r => (r.data, r.version)

/-! ### Delete with the `set_null` policy -/

/-- Does a value reference document `i` of table `t`? -/
def isRefTo (t : String) (i : Nat) (v : JVal) : Bool :=
  match refOf v with
  | some r => r.table == t && r.id == i
  | none => false

/-- Modelled from the spec: `set_null` rewriting of one field value — a
matching single reference becomes null; inside a list of references each
matching entry is replaced by a null placeholder, preserving the list's
arity and the positions of the other entries. -/
def nullifyVal (t : String) (i : Nat) : JVal → JVal
  | .arr xs => .arr (xs.map fun e => if isRefTo t i e then .null else e)
  | v => if isRefTo t i v then .null else v

/-- Rewrite every field of a referrer payload. -/
def nullifyDoc (t : String) (i : Nat) : JVal → JVal
  | .obj fs => .obj (fs.map fun kv => (kv.1, nullifyVal t i kv.2))
  | d => d

/-- Modelled from the spec: `delete_with_policy(on_delete="set_null")` for
document `i` of table `t` — rewrite every referrer in every table, then
delete the target row. -/
def setNullDelete (db : DBase) (t : String) (i : Nat) : DBase :=
  fun name =>
    let rewritten := (db name).map fun r => ⟨r.id, nullifyDoc t i r.data⟩
    if name = t then deleteDocument rewritten i else rewritten

/-! ### Concrete scenario data (used by witnesses) -/

/-- A stored address payload. -/
def addrChild : JVal := JVal.obj [("city", JVal.str "Kyoto")]

/-- A store whose every table holds one row with identifier 1. -/
def addrDb : DBase := fun _ => [⟨1, addrChild⟩]

/-- An owner payload referencing address 1 of `addresses`. -/
def adaOwner : JVal :=
  JVal.obj [("name", JVal.str "Ada"), ("address", encodeRef ⟨"addresses", 1⟩)]

/-- Payload of a `B` document that back-references `A` 1 (cyclic setup). -/
def bPayload : JVal :=
  JVal.obj [("name", JVal.str "b"), ("a", encodeRef ⟨"as", 1⟩)]

/-- Payload of an `A` document referencing `B` 2 (cyclic setup). -/
def aFields : List (String × JVal) :=
  [("name", JVal.str "a"), ("b", encodeRef ⟨"bs", 2⟩)]

/-- A store resolving the `B` side of the cycle. -/
def cycleDb : DBase := fun _ => [⟨2, bPayload⟩]

/-! ## Helper lemmas -/

/-- A one-key extraction is a key lookup. -/
theorem extractPath_singleton (d : JVal) (k : String) :
    extractPath d [k] = lookupKey d k := by
  cases h : lookupKey d k <;> simp [extractPath, h]

/-- The reference encoding round-trips through the recognizer. -/
theorem refOf_encodeRef (r : Ref) : refOf (encodeRef r) = some r := by
  simp [refOf, encodeRef, List.lookup, Int.toNat_natCast]

/-- Identifiers in a table never exceed `maxId`. -/
theorem id_le_maxId (tbl : List DocRow) (r : DocRow) (h : r ∈ tbl) :
    r.id ≤ maxId tbl := by
  induction tbl with
  | nil => cases h
  | cons a rest ih =>
    rcases List.mem_cons.mp h with h1 | h2
    · subst h1; exact Nat.le_max_left _ _
    · exact Nat.le_trans (ih h2) (Nat.le_max_right _ _)

/-- Finding a deleted identifier yields nothing. -/
theorem findDocument_delete (tbl : List DocRow) (i : Nat) :
    findDocument (deleteDocument tbl i) i = none := by
  unfold findDocument deleteDocument
  rw [List.find?_eq_none.mpr]
  · rfl
  · intro r hr
    have := (List.mem_filter.mp hr).2
    simp only [bne_iff_ne, ne_eq] at this
    simp [this]

/-- `find?` by identifier commutes with an identifier-preserving rewrite. -/
theorem find?_id_map (tbl : List DocRow) (g : JVal → JVal) (i : Nat) :
    ((tbl.map fun r => DocRow.mk r.id (g r.data)).find? fun r => r.id == i) =
      ((tbl.find? fun r => r.id == i).map fun r => DocRow.mk r.id (g r.data)) := by
  induction tbl with
  | nil => rfl
  | cons a rest ih =>
    by_cases h : a.id == i
    · simp [List.find?_cons, h]
    · simp only [List.map_cons, List.find?_cons] at *
      simp [h, ih]

/-- Finding in a rewritten table finds the rewritten payload. -/
theorem findDocument_map (tbl : List DocRow) (g : JVal → JVal) (i : Nat) :
    findDocument (tbl.map fun r => DocRow.mk r.id (g r.data)) i =
      (findDocument tbl i).map g := by
  unfold findDocument
  rw [find?_id_map]
  cases tbl.find? fun r => r.id == i <;> rfl

/-- `lookup` commutes with a key-preserving rewrite of an object's fields. -/
theorem lookup_map_val (fs : List (String × JVal)) (g : String → JVal → JVal)
    (k : String) :
    ((fs.map fun kv => (kv.1, g kv.1 kv.2)).lookup k) =
      ((fs.lookup k).map (g k)) := by
  induction fs with
  | nil => rfl
  | cons kv rest ih =>
    by_cases h : k == kv.1
    · have hk : k = kv.1 := by simpa using h
      simp [List.lookup, h, hk]
    · simp [List.lookup, h, ih]

/-- `evalPred` of a compiled comparison, characterized. -/
theorem evalPred_cmp_iff (d : JVal) (k : List String) (op : Cmp) (v : JVal) :
    evalPred (.cmp k op v) d = true ↔
      ∃ x, extractPath d k = some x ∧ cmpEval op x v = true := by
  simp only [evalPred]
  cases h : extractPath d k <;> simp [h]

/-- `evalPred` of a compiled `any().where(filt)[k] op v` scope, characterized:
both the filter and the trailing comparison read the array element. -/
theorem evalPred_anyW_cmp_iff (d : JVal) (arrPath k : List String) (filt : Pred)
    (op : Cmp) (v : JVal) :
    evalPred (.anyW arrPath filt (.cmp k op v)) d = true ↔
      ∃ xs, extractPath d arrPath = some (JVal.arr xs) ∧
        ∃ e ∈ xs, evalPred filt e = true ∧
          ∃ x, extractPath e k = some x ∧ cmpEval op x v = true := by
  simp only [evalPred]
  cases h : extractPath d arrPath with
  | none => simp
  | some w =>
    cases w with
    | arr xs =>
      simp only [List.any_eq_true, Bool.and_eq_true, Option.some.injEq, JVal.arr.injEq]
      constructor
      · rintro ⟨e, he, hf, hc⟩
        refine ⟨xs, rfl, e, he, hf, ?_⟩
        revert hc
        cases hx : extractPath e k <;> simp
      · rintro ⟨xs', hxs, e, he, hf, x, hx, hc⟩
        obtain rfl : xs = xs' := by simpa using hxs
        refine ⟨e, he, hf, ?_⟩
        simp [hx, hc]
    | null => simp
    | bool b => simp
    | int n => simp
    | str s => simp
    | obj fs => simp

/-- The reference recognizer accepts exactly two-key `{_table, _id}`
mappings. -/
theorem refOf_eq_some_iff (v : JVal) (r : Ref) :
    refOf v = some r ↔
      ∃ fs, v = JVal.obj fs ∧ fs.length = 2 ∧
        fs.lookup "_table" = some (JVal.str r.table) ∧
        fs.lookup "_id" = some (JVal.int r.id) := by
  constructor
  · intro h
    cases v with
    | obj fs =>
      refine ⟨fs, rfl, ?_⟩
      simp only [refOf] at h
      split at h
      case isFalse hlen => exact absurd h (by simp)
      case isTrue hlen =>
        split at h
        case h_2 => exact absurd h (by simp)
        case h_1 t n ht hn =>
          split at h
          case isFalse => exact absurd h (by simp)
          case isTrue h0 =>
            obtain ⟨rfl⟩ : r = ⟨t, n.toNat⟩ := by
              simpa using h.symm
            refine ⟨hlen, by simpa using ht, ?_⟩
            rw [hn]
            congr 1
            simp [Int.toNat_of_nonneg h0]
    | null => exact absurd h (by simp [refOf])
    | bool b => exact absurd h (by simp [refOf])
    | int n => exact absurd h (by simp [refOf])
    | str s => exact absurd h (by simp [refOf])
    | arr xs => exact absurd h (by simp [refOf])
  · rintro ⟨fs, rfl, hlen, ht, hi⟩
    simp [refOf, hlen, ht, hi, Int.toNat_natCast]

/-- The delete-policy referrer scan recognizes exactly the reference shape. -/
theorem isRefTo_iff (t : String) (i : Nat) (v : JVal) :
    isRefTo t i v = true ↔ refOf v = some ⟨t, i⟩ := by
  unfold isRefTo
  cases h : refOf v with
  | none => simp
  | some r0 =>
    obtain ⟨rt, ri⟩ := r0
    simp

/-- Hydration touches nothing in a payload without reference mappings. -/
theorem hydrateDoc_no_refs (db : DBase) (flds : List String)
    (fs : List (String × JVal)) (h : ∀ kv ∈ fs, refOf kv.2 = none) :
    hydrateDoc db flds (JVal.obj fs) = JVal.obj fs := by
  simp only [hydrateDoc]
  congr 1
  induction fs with
  | nil => rfl
  | cons kv rest ih =>
    have h1 := h kv (by simp)
    have h2 : ∀ kv ∈ rest, refOf kv.2 = none := fun x hx => h x (by simp [hx])
    simp only [List.map_cons]
    rw [ih h2]
    unfold hydrateField
    by_cases hc : flds.contains kv.1 <;> simp [hc, h1]

/-- Finding by identifier after an external version bump finds the bumped
row. -/
theorem find?_bumpVersion (tbl : List SafeRow) (i : Nat) :
    ((bumpVersion tbl i).find? fun r => r.id == i) =
      ((tbl.find? fun r => r.id == i).map fun r =>
        SafeRow.mk r.id r.data (r.version + 1)) := by
  unfold bumpVersion
  rw [List.find?_map]
  have hp : ((fun r => r.id == i) ∘ fun r =>
      if r.id == i then SafeRow.mk r.id r.data (r.version + 1) else r) =
      fun r => r.id == i := by
    funext r
    by_cases h : r.id = i <;> simp [h]
  rw [hp]
  cases hf : tbl.find? fun r => r.id == i with
  | none => rfl
  | some r1 =>
    have hp1 : r1.id = i := by simpa using List.find?_some hf
    simp [hp1]

/-! ## Claim theorems -/

/-- C8: for every field path, `isin([])` compiles to an expression whose SQL
text is exactly `"0"` with an empty parameter list, and filtering any table
by it returns the empty set. -/
theorem isin_empty_compiles_to_false (path : List String) (rows : List DocRow) :
    renderExpr (isin path []) = ("0", []) ∧ filterRows rows (isin path []) = [] := by
  refine ⟨rfl, ?_⟩
  simp [filterRows, isin, evalPred]

/-- C7 counterexample: a plain query with no `count()` projection compiles to
`SELECT data FROM oligos` — its base projection is not
`SELECT _id, data FROM <table>` (this is exactly what the repository's
`test_can_build_queries` asserts). -/
theorem base_projection_counterexample :
    (mkQuery "oligos").proj ≠ Projection.countStar ∧
    (mkQuery "oligos").sqlText = "SELECT data FROM oligos" ∧
    (mkQuery "oligos").sqlText ≠ "SELECT _id, data FROM oligos" := by
  refine ⟨by decide, rfl, by decide⟩

/-- C7 amended: for every model-bound query (the materializing kind, which
needs identifier-aware rows) with no `count()` projection, the compiled SQL
starts with the base projection `SELECT _id, data FROM <table>`. -/
theorem model_query_base_projection (q : SQLerQuery)
    (h : q.proj = Projection.idData) :
    ∃ rest, q.sqlText = "SELECT _id, data FROM " ++ q.table ++ rest := by
  refine ⟨whereSql q.wheres ++ orderSql q.order ++ limitSql q.limitN, ?_⟩
  have hlit : ("SELECT _id, data" ++ " FROM " : String) = "SELECT _id, data FROM " := rfl
  simp [SQLerQuery.sqlText, h, projectionSql, ← hlit, String.append_assoc]

/-- C7 amended, witnessed on a fresh model-bound query over `users`. -/
theorem model_query_base_projection_witness :
    ∃ rest, (mkModelQuery "users").sqlText = "SELECT _id, data FROM " ++ "users" ++ rest :=
  model_query_base_projection (mkModelQuery "users") rfl

/-- C10: deleting a saved instance removes the stored row (the old identifier
no longer resolves) and clears the in-memory identifier, returning the
instance to the unsaved state. -/
theorem delete_clears_row_and_id (tbl : List DocRow) (inst : Instance) (i : Nat)
    (h : inst.id = some i) :
    findDocument (deleteInstance tbl inst).1 i = none ∧
    (deleteInstance tbl inst).2.id = none := by
  refine ⟨?_, by simp [deleteInstance, h]⟩
  simp only [deleteInstance, h]
  exact findDocument_delete tbl i

/-- C10 witnessed on a one-row table. -/
theorem delete_clears_row_and_id_witness :
    findDocument (deleteInstance [⟨1, JVal.null⟩] ⟨some 1, JVal.null⟩).1 1 = none ∧
    (deleteInstance [⟨1, JVal.null⟩] ⟨some 1, JVal.null⟩).2.id = none :=
  delete_clears_row_and_id [⟨1, JVal.null⟩] ⟨some 1, JVal.null⟩ 1 rfl

/-- C2: filtering by `field.any().where(filt)[k] op v` returns exactly the
rows having at least one array element `e` at the field such that `e`
satisfies the filter and `e[k] op v` holds — identifiers inside the
where-predicate are evaluated per array element, not against the outer
document. -/
theorem any_where_filter_exact (rows : List DocRow) (arrPath k : List String)
    (filt : Pred) (op : Cmp) (v : JVal) (r : DocRow) :
    r ∈ filterRows rows (anyWhereCmp arrPath filt k op v) ↔
      r ∈ rows ∧ ∃ xs, extractPath r.data arrPath = some (JVal.arr xs) ∧
        ∃ e ∈ xs, evalPred filt e = true ∧
          ∃ x, extractPath e k = some x ∧ cmpEval op x v = true := by
  unfold filterRows anyWhereCmp
  rw [List.mem_filter, evalPred_anyW_cmp_iff]

/-- C9: a saved nested model value is encoded as the two-key
`{_table, _id}` mapping, and the reference consumers (hydrator,
delete-policy referrer scan) recognize precisely mappings of that shape —
values of any other shape are left untouched. -/
theorem reference_shape_contract :
    (∀ r : Ref, refOf (encodeRef r) = some r) ∧
    (∀ (v : JVal) (r : Ref), refOf v = some r ↔
      ∃ fs, v = JVal.obj fs ∧ fs.length = 2 ∧
        fs.lookup "_table" = some (JVal.str r.table) ∧
        fs.lookup "_id" = some (JVal.int r.id)) ∧
    (∀ (t : String) (i : Nat) (v : JVal),
      isRefTo t i v = true ↔ refOf v = some ⟨t, i⟩) ∧
    (∀ (db : DBase) (flds : List String) (fs : List (String × JVal)),
      (∀ kv ∈ fs, refOf kv.2 = none) →
        hydrateDoc db flds (JVal.obj fs) = JVal.obj fs) :=
  ⟨refOf_encodeRef, refOf_eq_some_iff, isRefTo_iff, hydrateDoc_no_refs⟩

/-- C9 witnessed: the encoder output is recognized, and a payload with no
reference mappings hydrates to itself. -/
theorem reference_shape_contract_witness :
    refOf (encodeRef ⟨"orders", 5⟩) = some ⟨"orders", 5⟩ ∧
    hydrateDoc (fun _ => []) ["address"] (JVal.obj [("name", JVal.str "Ada")]) =
      JVal.obj [("name", JVal.str "Ada")] :=
  ⟨reference_shape_contract.1 ⟨"orders", 5⟩,
   reference_shape_contract.2.2.2 (fun _ => []) ["address"] [("name", JVal.str "Ada")]
     (by intro kv hkv; rcases List.mem_singleton.mp hkv with rfl; rfl)⟩

/-- C5: saving an instance and re-loading it by the returned identifier
yields the saved payload unchanged (references included), and materializing
then dumping strips only the injected `_id`. -/
theorem save_from_id_round_trip (tbl : List DocRow) (inst : Instance)
    (fs : List (String × JVal)) (hdata : inst.data = JVal.obj fs)
    (hid : ∀ kv ∈ fs, kv.1 ≠ "_id") :
    findDocument (saveInstance tbl inst).1 (saveInstance tbl inst).2 = some inst.data ∧
    modelDump (materialize (saveInstance tbl inst).2 inst.data) = inst.data := by
  constructor
  · cases hins : inst.id with
    | none =>
      simp only [saveInstance, hins, insertDocument, findDocument]
      rw [List.find?_append]
      have hnone : (tbl.find? fun r => r.id == maxId tbl + 1) = none := by
        rw [List.find?_eq_none]
        intro r hr
        have := id_le_maxId tbl r hr
        simp only [beq_iff_eq]
        omega
      rw [hnone]
      simp [List.find?]
    | some i =>
      simp only [saveInstance, hins, upsertDocument, findDocument]
      rw [List.find?_append]
      have hnone : ((tbl.filter fun r => r.id != i).find? fun r => r.id == i) = none := by
        rw [List.find?_eq_none]
        intro r hr
        have := (List.mem_filter.mp hr).2
        simp only [bne_iff_ne, ne_eq] at this
        simp [this]
      rw [hnone]
      simp [List.find?]
  · rw [hdata]
    simp only [materialize, modelDump]
    congr 1
    rw [List.filter_cons]
    rw [if_neg (by simp)]
    exact List.filter_eq_self.mpr (by intro kv hkv; simpa using hid kv hkv)

/-- C5 witnessed: a fresh instance round-trips through save and load. -/
theorem save_from_id_round_trip_witness :
    findDocument (saveInstance [] ⟨none, JVal.obj [("name", JVal.str "Ada")]⟩).1
        (saveInstance [] ⟨none, JVal.obj [("name", JVal.str "Ada")]⟩).2 =
      some (JVal.obj [("name", JVal.str "Ada")]) ∧
    modelDump (materialize (saveInstance [] ⟨none, JVal.obj [("name", JVal.str "Ada")]⟩).2
        (JVal.obj [("name", JVal.str "Ada")])) = JVal.obj [("name", JVal.str "Ada")] :=
  save_from_id_round_trip [] ⟨none, JVal.obj [("name", JVal.str "Ada")]⟩
    [("name", JVal.str "Ada")] rfl (by decide)

/-- C1: saving an existing safe-model instance issues a single conditional
UPDATE keyed on `(_id, _version)`; it raises `StaleVersion` iff that update
affects zero rows; on success the in-memory `_version` advances by exactly 1;
after an external version bump the next save raises `StaleVersion`, and a
refresh (re-reading the bumped version) followed by a save succeeds. -/
theorem safe_save_optimistic_concurrency
    (table : String) (tbl : List SafeRow) (i ver : Nat) (d d2 : JVal)
    (hmem : ∃ r ∈ tbl, r.id = i)
    (hver : ∀ r ∈ tbl, r.id = i → r.version = ver) :
    (saveSafeExisting table tbl i ver d).2 = [Stmt.updateCond table i ver d]
    ∧ (∀ tb : List SafeRow,
        (saveSafeExisting table tb i ver d).1 = .error .staleVersion ↔
          matchCount tb i ver = 0)
    ∧ (∀ (tb : List SafeRow) (res : List SafeRow × Nat),
        (saveSafeExisting table tb i ver d).1 = .ok res → res.2 = ver + 1)
    ∧ (saveSafeExisting table tbl i ver d).1 =
        .ok ((condUpdate tbl i ver d).1, ver + 1)
    ∧ (saveSafeExisting table (bumpVersion tbl i) i ver d).1 = .error .staleVersion
    ∧ (∃ d0, refreshRow (bumpVersion tbl i) i = some (d0, ver + 1))
    ∧ (saveSafeExisting table (bumpVersion tbl i) i (ver + 1) d2).1 =
        .ok ((condUpdate (bumpVersion tbl i) i (ver + 1) d2).1, ver + 2) := by
  obtain ⟨r0, hr0, hid0⟩ := hmem
  have hv0 : r0.version = ver := hver r0 hr0 hid0
  have hcount : matchCount tbl i ver ≠ 0 := by
    have : 0 < matchCount tbl i ver := by
      refine List.countP_pos_iff.mpr ⟨r0, hr0, ?_⟩
      simp [hid0, hv0]
    omega
  have hbump0 : matchCount (bumpVersion tbl i) i ver = 0 := by
    unfold matchCount bumpVersion
    rw [List.countP_map, List.countP_eq_zero]
    intro r hr
    by_cases h : r.id = i
    · have hv := hver r hr h
      simp [h, hv]
    · simp [h]
  have hfind : ∃ r1, (tbl.find? fun r => r.id == i) = some r1 := by
    have hs : ((tbl.find? fun r => r.id == i).isSome) := by
      rw [List.find?_isSome]
      exact ⟨r0, hr0, by simp [hid0]⟩
    exact Option.isSome_iff_exists.mp hs
  refine ⟨rfl, ?_, ?_, ?_, ?_, ?_, ?_⟩
  · intro tb
    by_cases h : matchCount tb i ver = 0 <;>
      simp [saveSafeExisting, condUpdate, h]
  · intro tb res h
    by_cases hc : matchCount tb i ver = 0
    · simp [saveSafeExisting, condUpdate, hc] at h
    · simp [saveSafeExisting, condUpdate, hc] at h
      rw [← h]
  · simp [saveSafeExisting, condUpdate, hcount]
  · simp [saveSafeExisting, condUpdate, hbump0]
  · obtain ⟨r1, h1⟩ := hfind
    have hp : r1.id = i := by simpa using List.find?_some h1
    have hm : r1 ∈ tbl := List.mem_of_find?_eq_some h1
    have hv1 : r1.version = ver := hver r1 hm hp
    refine ⟨r1.data, ?_⟩
    unfold refreshRow
    rw [find?_bumpVersion, h1]
    simp [hv1]
  · have hpos : matchCount (bumpVersion tbl i) i (ver + 1) ≠ 0 := by
      have hmem2 : SafeRow.mk r0.id r0.data (r0.version + 1) ∈ bumpVersion tbl i := by
        unfold bumpVersion
        refine List.mem_map.mpr ⟨r0, hr0, ?_⟩
        simp [hid0]
      have : 0 < matchCount (bumpVersion tbl i) i (ver + 1) := by
        refine List.countP_pos_iff.mpr ⟨_, hmem2, ?_⟩
        simp [hid0, hv0]
      omega
    simp [saveSafeExisting, condUpdate, hpos]

/-- C1 witnessed on a one-row `accounts` table at version 0. -/
theorem safe_save_optimistic_concurrency_witness :
    (saveSafeExisting "accounts" [⟨1, JVal.null, 0⟩] 1 0 JVal.null).1 =
      .ok ((condUpdate [⟨1, JVal.null, 0⟩] 1 0 JVal.null).1, 1) ∧
    (saveSafeExisting "accounts" (bumpVersion [⟨1, JVal.null, 0⟩] 1) 1 0 JVal.null).1 =
      .error .staleVersion ∧
    (∃ d0, refreshRow (bumpVersion [⟨1, JVal.null, 0⟩] 1) 1 = some (d0, 1)) ∧
    (saveSafeExisting "accounts" (bumpVersion [⟨1, JVal.null, 0⟩] 1) 1 1 JVal.null).1 =
      .ok ((condUpdate (bumpVersion [⟨1, JVal.null, 0⟩] 1) 1 1 JVal.null).1, 2) := by
  have h := safe_save_optimistic_concurrency "accounts" [⟨1, JVal.null, 0⟩] 1 0
    JVal.null JVal.null ⟨⟨1, JVal.null, 0⟩, by simp, rfl⟩ (by decide)
  exact ⟨h.2.2.2.1, h.2.2.2.2.1, h.2.2.2.2.2.1, h.2.2.2.2.2.2⟩

/-- C3: the hydrator issues at most one batched lookup per referenced table
(with distinct identifiers, the referenced identifier among them), and the
referenced document is assigned back onto its owner's field. -/
theorem batch_hydration_one_select_per_table
    (db : DBase) (flds : List String) (owners : List JVal)
    (owner : JVal) (f : String) (rf : Ref) (child : JVal)
    (fs : List (String × JVal)) (hobj : owner = JVal.obj fs)
    (howner : owner ∈ owners) (hf : f ∈ flds)
    (hval : fs.lookup f = some (encodeRef rf))
    (hchild : findInDb db rf.table rf.id = some child) :
    ((hydrationQueries flds owners).countP fun q => q.table == rf.table) ≤ 1
    ∧ rf.id ∈ idsForTable flds owners rf.table
    ∧ (idsForTable flds owners rf.table).Nodup
    ∧ extractPath (hydrateDoc db flds owner) [f] = some child := by
  have hcnt : ((hydrationQueries flds owners).countP fun q => q.table == rf.table)
      = List.count rf.table (refTables flds owners) := by
    unfold hydrationQueries
    rw [List.countP_map]
    rfl
  refine ⟨?_, ?_, List.nodup_dedup _, ?_⟩
  · rw [hcnt]
    exact List.nodup_iff_count_le_one.mp (List.nodup_dedup _) rf.table
  · unfold idsForTable
    rw [List.mem_dedup]
    refine List.mem_map.mpr ⟨rf, ?_, rfl⟩
    rw [List.mem_filter]
    refine ⟨?_, by simp⟩
    unfold allRefs
    rw [List.mem_flatten]
    refine ⟨docRefs flds owner, List.mem_map.mpr ⟨owner, howner, rfl⟩, ?_⟩
    unfold docRefs
    rw [List.mem_filterMap]
    refine ⟨f, hf, ?_⟩
    rw [hobj, extractPath_singleton]
    simp [lookupKey, hval, refOf_encodeRef]
  · rw [hobj]
    simp only [hydrateDoc]
    rw [extractPath_singleton]
    simp only [lookupKey]
    rw [lookup_map_val fs (fun k v => hydrateField db flds k v) f, hval]
    have hc : flds.contains f = true := List.elem_eq_true_of_mem hf
    simp [hydrateField, hc, refOf_encodeRef, hchild]
    intro hnot
    exact absurd hf hnot

/-- C3 witnessed: one owner referencing one address; the single batched query
collects identifier 1 and hydration assigns the address payload back. -/
theorem batch_hydration_one_select_per_table_witness :
    ((hydrationQueries ["address"] [adaOwner]).countP fun q => q.table == "addresses") ≤ 1
    ∧ 1 ∈ idsForTable ["address"] [adaOwner] "addresses"
    ∧ (idsForTable ["address"] [adaOwner] "addresses").Nodup
    ∧ extractPath (hydrateDoc addrDb ["address"] adaOwner) ["address"] = some addrChild :=
  batch_hydration_one_select_per_table addrDb ["address"] [adaOwner] adaOwner
    "address" ⟨"addresses", 1⟩ addrChild
    [("name", JVal.str "Ada"), ("address", encodeRef ⟨"addresses", 1⟩)]
    rfl (List.mem_singleton.mpr rfl) (List.mem_singleton.mpr rfl) rfl rfl

/-- C4: hydration of a cyclic reference graph terminates after one hop — the
hydrated `A` instance's `.b` is the full `B` payload, its `.b.a` one hop
further is still the raw reference mapping (recognized as such), and
`.b.a.b` is absent rather than recursively hydrated. -/
theorem cycle_hydration_one_hop
    (db : DBase) (ta tb : String) (ia ib : Nat)
    (afs bfs : List (String × JVal))
    (hlook : findInDb db tb ib = some (JVal.obj bfs))
    (haref : afs.lookup "b" = some (encodeRef ⟨tb, ib⟩))
    (hbref : bfs.lookup "a" = some (encodeRef ⟨ta, ia⟩)) :
    extractPath (hydrateDoc db ["b"] (JVal.obj afs)) ["b"] = some (JVal.obj bfs)
    ∧ extractPath (hydrateDoc db ["b"] (JVal.obj afs)) ["b", "a"] =
        some (encodeRef ⟨ta, ia⟩)
    ∧ refOf (encodeRef ⟨ta, ia⟩) = some ⟨ta, ia⟩
    ∧ extractPath (hydrateDoc db ["b"] (JVal.obj afs)) ["b", "a", "b"] = none := by
  have hlk : lookupKey (hydrateDoc db ["b"] (JVal.obj afs)) "b" = some (JVal.obj bfs) := by
    simp only [hydrateDoc, lookupKey]
    rw [lookup_map_val afs (fun k v => hydrateField db ["b"] k v) "b", haref]
    simp [hydrateField, refOf_encodeRef, hlook]
  have hb : extractPath (hydrateDoc db ["b"] (JVal.obj afs)) ["b"] = some (JVal.obj bfs) := by
    rw [extractPath_singleton, hlk]
  have hba : extractPath (hydrateDoc db ["b"] (JVal.obj afs)) ["b", "a"] =
      some (encodeRef ⟨ta, ia⟩) := by
    show (match lookupKey (hydrateDoc db ["b"] (JVal.obj afs)) "b" with
      | some v => extractPath v ["a"] | none => none) = some (encodeRef ⟨ta, ia⟩)
    rw [hlk]
    show extractPath (JVal.obj bfs) ["a"] = some (encodeRef ⟨ta, ia⟩)
    rw [extractPath_singleton]
    simp [lookupKey, hbref]
  refine ⟨hb, hba, refOf_encodeRef _, ?_⟩
  show (match lookupKey (hydrateDoc db ["b"] (JVal.obj afs)) "b" with
    | some v => extractPath v ["a", "b"] | none => none) = none
  rw [hlk]
  show (match lookupKey (JVal.obj bfs) "a" with
    | some v => extractPath v ["b"] | none => none) = none
  simp only [lookupKey]
  rw [hbref]
  rfl

/-- C4 witnessed on the concrete two-document cycle. -/
theorem cycle_hydration_one_hop_witness :
    extractPath (hydrateDoc cycleDb ["b"] (JVal.obj aFields)) ["b"] = some bPayload
    ∧ extractPath (hydrateDoc cycleDb ["b"] (JVal.obj aFields)) ["b", "a"] =
        some (encodeRef ⟨"as", 1⟩)
    ∧ refOf (encodeRef ⟨"as", 1⟩) = some ⟨"as", 1⟩
    ∧ extractPath (hydrateDoc cycleDb ["b"] (JVal.obj aFields)) ["b", "a", "b"] = none :=
  cycle_hydration_one_hop cycleDb "as" "bs" 1 2 aFields
    [("name", JVal.str "b"), ("a", encodeRef ⟨"as", 1⟩)] rfl rfl rfl

/-- C6: the `set_null` delete policy nullifies exactly the matching entries —
a matching single reference becomes null; inside a list each matching entry
becomes a null placeholder while the list keeps its length and the other
positions; references to other documents are untouched; afterwards the
target row is deleted and every other table keeps its rows (rewritten in
place, identifiers preserved). -/
theorem set_null_delete_policy
    (db : DBase) (t : String) (i : Nat) (xs : List JVal) (r : Ref)
    (hr : r ≠ ⟨t, i⟩) :
    (∃ ys, nullifyVal t i (JVal.arr xs) = JVal.arr ys ∧ ys.length = xs.length ∧
      ∀ j : Nat, ys[j]? = (xs[j]?).map fun e => if isRefTo t i e then JVal.null else e)
    ∧ nullifyVal t i (encodeRef ⟨t, i⟩) = JVal.null
    ∧ nullifyVal t i (encodeRef r) = encodeRef r
    ∧ findInDb (setNullDelete db t i) t i = none
    ∧ (∀ t', t' ≠ t → ∀ j,
        findInDb (setNullDelete db t i) t' j = (findInDb db t' j).map (nullifyDoc t i)) := by
  refine ⟨?_, ?_, ?_, ?_, ?_⟩
  · refine ⟨xs.map fun e => if isRefTo t i e then JVal.null else e, rfl,
      List.length_map _ _, fun j => List.getElem?_map _ _ _⟩
  · have : isRefTo t i (encodeRef ⟨t, i⟩) = true := by
      simp [isRefTo, refOf_encodeRef]
    simp [nullifyVal, encodeRef, this]
    simpa [encodeRef] using this
  · have hfalse : isRefTo t i (encodeRef r) = false := by
      obtain ⟨rt, ri⟩ := r
      have : ¬(rt = t ∧ ri = i) := by
        intro ⟨h1, h2⟩
        exact hr (by rw [h1, h2])
      simp [isRefTo, refOf_encodeRef]
      intro h1
      intro h2
      exact this ⟨h1, h2⟩
    simp [nullifyVal, encodeRef] at hfalse ⊢
    exact hfalse
  · unfold setNullDelete findInDb
    simp only [if_pos rfl]
    exact findDocument_delete _ i
  · intro t' ht' j
    unfold setNullDelete findInDb
    simp only [if_neg ht']
    exact findDocument_map (db t') (nullifyDoc t i) j

/-- C6 witnessed: deleting address 1 nullifies the matching list entry and
single reference, keeps the reference to address 2, removes the target row
and rewrites the `users` table in place. -/
theorem set_null_delete_policy_witness :
    (∃ ys, nullifyVal "addresses" 1
        (JVal.arr [encodeRef ⟨"addresses", 1⟩, encodeRef ⟨"addresses", 2⟩]) = JVal.arr ys ∧
      ys.length = 2 ∧
      ∀ j : Nat, ys[j]? =
        (([encodeRef ⟨"addresses", 1⟩, encodeRef ⟨"addresses", 2⟩] : List JVal)[j]?).map
          fun e => if isRefTo "addresses" 1 e then JVal.null else e)
    ∧ nullifyVal "addresses" 1 (encodeRef ⟨"addresses", 1⟩) = JVal.null
    ∧ nullifyVal "addresses" 1 (encodeRef ⟨"addresses", 2⟩) = encodeRef ⟨"addresses", 2⟩
    ∧ findInDb (setNullDelete addrDb "addresses" 1) "addresses" 1 = none
    ∧ (∀ t', t' ≠ "addresses" → ∀ j,
        findInDb (setNullDelete addrDb "addresses" 1) t' j =
          (findInDb addrDb t' j).map (nullifyDoc "addresses" 1)) :=
  set_null_delete_policy addrDb "addresses" 1
    [encodeRef ⟨"addresses", 1⟩, encodeRef ⟨"addresses", 2⟩] ⟨"addresses", 2⟩
    (by simp)

end Sqler
